import Mathlib

/-!
Verification development for the python-insteon link-database and transport
code.  Definitions are a shallow embedding of the Python sources:

* `src/insteon/io/address.py`   → `Insteon.Address`
* `src/insteon/dev/linkdb.py`   → `Insteon.LinkRecord`, `Insteon.LinkDB`
* `src/insteon/dev/dbmanager.py`→ `Insteon.genericCheckPermissions`,
  `Insteon.delPass`/`Insteon.addPass`/`Insteon.genericWrite`,
  `Insteon.modemDelPass`/`Insteon.modemAddPass`/`Insteon.modemWrite`,
  `Insteon.modemRetrieve`, `Insteon.updateCacheG`, `Insteon.flashCacheG`
* `src/insteon/io/port.py`      → `Insteon.runWriterTries`

Machine integers are modelled as `Nat` (Python ints are unbounded; the code
masks with `& 0xFF` where it matters), table offsets/cursors as `Int`
(`free_offset` may go negative in Python).  Python object identity (the
default `==` for classes that define no `__eq__`, which is the case for both
`Address` and `LinkRecord`) is modelled by an explicit `oid` field.
Network interaction is modelled by passing the database a retrieval would
return as an explicit parameter, and the commands a write issues are
collected into an explicit trace list.  A Python exception is an explicit
`Err` value; a raised exception truncates the trace at the point it occurs.
-/

namespace Insteon

/-- `Address` from `src/insteon/io/address.py`: three component bytes plus a
Python object identity `oid`.  The class defines no `__eq__`, so Python `==`
on two `Address` objects is object identity, which `oid` models. -/
structure Address where
  hi : Nat
  mid : Nat
  low : Nat
  oid : Nat
deriving DecidableEq

/-- Python `==` on `Address` values: with no `__eq__` defined, `a == b` falls
back to `a is b`, i.e. object identity. -/
def Address.pyEq (a b : Address) : Bool := a.oid == b.oid

/-- The `Address.bytes` property: `bytes([hi, mid, low])`. -/
def Address.bytesOf (a : Address) : List Nat := [a.hi, a.mid, a.low]

/-- The second-precision part of a `datetime`, i.e. exactly the fields the
format string `'%b %d %Y %H:%M:%S'` prints and `strptime` recovers. -/
structure TsSec where
  month : Nat
  day : Nat
  year : Nat
  hour : Nat
  minute : Nat
  second : Nat
deriving DecidableEq

/-- A `datetime.datetime` value: its second-precision part plus the
microseconds that `strftime('%b %d %Y %H:%M:%S')` drops. -/
structure Timestamp where
  sec : TsSec
  micro : Nat
deriving DecidableEq

/-- `strftime('%b %d %Y %H:%M:%S')`, modelled as the structured data the
produced string encodes: the microseconds are dropped. -/
def tsDump (t : Timestamp) : TsSec := t.sec

/-- `strptime(s, '%b %d %Y %H:%M:%S')`: reconstructs the datetime with
microseconds 0. -/
def tsParse (p : TsSec) : Timestamp := ⟨p, 0⟩

/-- `LinkRecord` from `src/insteon/dev/linkdb.py`.  All payload fields are
optional exactly as in the Python constructor (default `None`);
`filterFlags` is the `_filter_flags` attribute.  `oid` models Python object
identity (the class defines no `__eq__`, so `rec in list` membership used by
`LinkDB.add` compares identities). -/
structure LinkRecord where
  offset : Option Nat
  address : Option Address
  group : Option Nat
  flags : Option Nat
  data : Option (List Nat)
  filterFlags : Option Nat
  oid : Nat
deriving DecidableEq

/-- Python truthiness of an optional integer: `None` and `0` are falsy. -/
def truthyN : Option Nat → Bool
  | none => false
  | some n => !(n == 0)

/-- `LinkRecord.__init__(offset, address, group, flags, data,
filter_flags_mask, filter_link_type, filter_controller)`.  Returns `none`
for the one path that raises in Python: `filter_controller` with a truthy
mask and `flags is None` evaluates `None | (1 << 6)`, a `TypeError`. -/
def linkRecordInit (offset : Option Nat) (address : Option Address)
    (group : Option Nat) (flags : Option Nat) (data : Option (List Nat))
    (filterFlagsMask : Option Nat) (filterLinkType : Bool)
    (filterController : Bool) (oid : Nat) : Option LinkRecord :=
  let ff := if filterLinkType && !(truthyN filterFlagsMask) then some 64
            else filterFlagsMask
  if truthyN ff && filterController then
    match flags with
    | none => none
    | some f => some ⟨offset, address, group, some (f ||| 64), data, ff, oid⟩
  else
    some ⟨offset, address, group, flags, data, ff, oid⟩

/-- The `active` property: `flags & (1 << 7) > 0`.  `none` marks the
`TypeError` Python raises when `flags is None`. -/
def LinkRecord.activeProp (r : LinkRecord) : Option Bool :=
  r.flags.map (fun f => decide (f &&& 128 > 0))

/-- The `controller` property: `flags & (1 << 6) > 0` (raises on `None`). -/
def LinkRecord.controllerProp (r : LinkRecord) : Option Bool :=
  r.flags.map (fun f => decide (f &&& 64 > 0))

/-- `LinkRecord.matches(self, other)` translated clause by clause from
`linkdb.py`: a field that either side leaves unset is skipped; the flags
comparison honours a filter mask (`self`'s mask preferred, Python
truthiness) and compares only masked bits when one is present. -/
def LinkRecord.matches (self other : LinkRecord) : Bool :=
  if self.offset.isSome && other.offset.isSome
      && !(self.offset == other.offset) then false
  else if (match self.address, other.address with
    | some a, some b => !(Address.pyEq a b)
    | _, _ => false) then false
  else if self.group.isSome && other.group.isSome
      && !(self.group == other.group) then false
  else if (match self.flags, other.flags with
    | some f1, some f2 =>
      let ff := if truthyN self.filterFlags then self.filterFlags
                else other.filterFlags
      (truthyN ff && !((f1 &&& ff.getD 0) == (f2 &&& ff.getD 0)))
        || (!(truthyN ff) && !(f1 == f2))
    | _, _ => false) then false
  else if (match self.data, other.data with
    | some d1, some d2 => !(d1 == d2)
    | _, _ => false) then false
  else true

/-- `record.copy()` followed by `copy.offset = None`, the pattern built by
both `_write` loops.  `copy()` passes only the five payload fields, so the
filter mask is dropped.  The copy is a fresh Python object; its identity is
never consulted (patterns are only used in `matches` tests), so we keep
`r.oid`. -/
def LinkRecord.filterPattern (r : LinkRecord) : LinkRecord :=
  { r with offset := none, filterFlags := none }

/-- `LinkDB` from `src/insteon/dev/linkdb.py`: an ordered record list plus an
optional timestamp. -/
structure LinkDB where
  records : List LinkRecord
  timestamp : Option Timestamp
deriving DecidableEq

/-- The `valid` property: the timestamp is set. -/
def LinkDB.valid (db : LinkDB) : Bool := db.timestamp.isSome

/-- `record in db` (`LinkDB.__contains__`): some member record is matched by
the needle (`record.matches(r)` with the needle on the left). -/
def LinkDB.containsRec (db : LinkDB) (needle : LinkRecord) : Bool :=
  db.records.any (fun m => needle.matches m)

/-- One iteration of the `end_offset` scan: `if r.offset and
r.offset - 0x08 < last_off` — Python truthiness, so offsets `None` and `0`
are both skipped. -/
def endOffsetStep (last : Int) (r : LinkRecord) : Int :=
  match r.offset with
  | some o => if o ≠ 0 ∧ (o : Int) - 8 < last then (o : Int) - 8 else last
  | none => last

/-- The `end_offset` property: start from the table ceiling `0x0fff` and for
every record with a truthy offset whose `offset - 8` is lower than the
running value, lower it.  Python ints may go negative, hence `Int`. -/
def LinkDB.endOffset (db : LinkDB) : Int :=
  db.records.foldl endOffsetStep 0x0fff

/-- `LinkDB.add(rec)`: append unless already present.  `rec in self.records`
is plain Python list membership, which uses `==`; `LinkRecord` defines no
`__eq__`, so this is an identity test, modelled via `oid`. -/
def LinkDB.add (db : LinkDB) (r : LinkRecord) : LinkDB :=
  if db.records.any (fun x => x.oid == r.oid) then db
  else { db with records := db.records ++ [r] }

/-- `LinkDB.update(records)` for a plain list argument: clear, add each
record, then `set_timestamp()` stamps the current time (the list has no
`timestamp` attribute). -/
def LinkDB.updateList (db : LinkDB) (rs : List LinkRecord) (now : Timestamp) :
    LinkDB :=
  let db1 := rs.foldl LinkDB.add { db with records := [] }
  { db1 with timestamp := some now }

/-- `LinkDB.update(records)` for another `LinkDB` argument: clear, add each
record, then `set_timestamp(records.timestamp)`; `set_timestamp` substitutes
the current time when handed `None` (Python truthiness). -/
def LinkDB.updateDB (db src : LinkDB) (now : Timestamp) : LinkDB :=
  let db1 := src.records.foldl LinkDB.add { db with records := [] }
  { db1 with timestamp := some (src.timestamp.getD now) }

/-- The exceptions the modelled code can raise.  `typeError` and
`attributeError` stand for the Python `TypeError`/`AttributeError` a `None`
field or a missing attribute raises; the rest are the `InsteonError`s of
`dbmanager.py`. -/
inductive Err
  | typeError
  | attributeError
  | outOfSpace
  | unpopulatedSource
  | notLinkedController
  | cannotLink
deriving DecidableEq

/-- `GenericDBManager._check_permissions(currentdb)`: builds the pattern
`LinkRecord(address=modem_addr, filter_flags_mask=(1 << 6))` and tests
`rec_filter in currentdb`.  The constructor cannot raise on this argument
combination (`filter_controller` is left `False`), so the `none` branch is
unreachable. -/
def genericCheckPermissions (modemAddr : Address) (currentdb : LinkDB) : Bool :=
  match linkRecordInit none (some modemAddr) none none none (some 64)
      false false 0 with
  | some recFilter => currentdb.containsRec recFilter
  | none => false

/-- A mutating extended command of `GenericDBManager._write`: the zero-fill
delete or the 8-byte add issued by `querier.query_ext(0x2f, 0x00, ...)`.
The wire payload is a function of the carried record (and, for `add`, the
free-offset argument), so the trace keeps the record itself. -/
inductive GCmd
  | remove (r : LinkRecord)
  | add (r : LinkRecord) (freeOffset : Int)
deriving DecidableEq

/-- The payload construction of the nested `remove(record)`: it reads
`record.offset >> 8`, so a record with no offset raises `TypeError`. -/
def removeCmd (r : LinkRecord) : Except Err GCmd :=
  match r.offset with
  | none => Except.error Err.typeError
  | some _ => Except.ok (GCmd.remove r)

/-- The payload construction of the nested `add(record, offset)`, in source
evaluation order: `record.offset >> 8` raises `TypeError` when the offset
is `None`; `record.flags` and `record.group` are appended as-is (no raise);
then `req_data.extend(record.address.array)` is evaluated — and the
`Address` class in `src/insteon/io/address.py` defines no `array`
attribute, so this step raises `AttributeError` for every record, with or
without an address (`None.array` raises it too).  The intended `GCmd.add`
command is therefore never actually issued by the source. -/
def addCmd (r : LinkRecord) (freeOffset : Int) : Except Err GCmd :=
  match r.offset with
  | none => Except.error Err.typeError
  | some _ => Except.error Err.attributeError

/-- The guard of the self-link deferral in `GenericDBManager._write`:
`record.address == modem_addr and record.responder and not last_remove`
(with `flags = f` already known non-`None` from the `active` test, and
`not last_remove` checking the variable is still `None` — a `LinkRecord`
object is always truthy). -/
def isDeferral (modemAddr : Address) (r : LinkRecord) (f : Nat)
    (lastRemove : Option LinkRecord) : Bool :=
  (match r.address with
    | some a => Address.pyEq a modemAddr
    | none => false)
  && (f &&& 64 == 0) && lastRemove.isNone

/-- The deletion pass of `GenericDBManager._write`: walk `currentdb`,
skipping inactive records and records whose offset-cleared pattern is found
in `srcdb`; defer the first matching modem responder record into
`last_remove`; delete the rest.  Returns the commands issued, the deferred
record, and the exception (if one was raised, truncating the walk). -/
def delPass (modemAddr : Address) (srcdb : LinkDB) :
    List LinkRecord → Option LinkRecord →
    List GCmd × Option LinkRecord × Option Err
  | [], lastRemove => ([], lastRemove, none)
  | r :: rest, lastRemove =>
    match r.flags with
    | none => ([], lastRemove, some Err.typeError)
    | some f =>
      if f &&& 128 == 0 then delPass modemAddr srcdb rest lastRemove
      else if srcdb.containsRec r.filterPattern then
        delPass modemAddr srcdb rest lastRemove
      else if isDeferral modemAddr r f lastRemove then
        delPass modemAddr srcdb rest (some r)
      else
        match removeCmd r with
        | Except.error e => ([], lastRemove, some e)
        | Except.ok c =>
          let res := delPass modemAddr srcdb rest lastRemove
          (c :: res.1, res.2.1, res.2.2)

/-- The addition pass of `GenericDBManager._write`: walk `srcdb`, skipping
records whose offset-cleared pattern is found in the refreshed current
database; raise `outOfSpace` when the free-offset cursor has run below
`0x08`; otherwise issue the add and move the cursor down by 8. -/
def addPass (currentdb : LinkDB) :
    List LinkRecord → Int → List GCmd × Option Err
  | [], _ => ([], none)
  | r :: rest, freeOffset =>
    if currentdb.containsRec r.filterPattern then
      addPass currentdb rest freeOffset
    else if freeOffset < 8 then ([], some Err.outOfSpace)
    else
      match addCmd r freeOffset with
      | Except.error e => ([], some e)
      | Except.ok c =>
        let res := addPass currentdb rest (freeOffset - 8)
        (c :: res.1, res.2)

/-- `GenericDBManager._write(port, srcdb, currentdb)`.  After the deletion
pass the source refetches: `currentdb = linkdb.LinkDB();
self.update_cache(targetdb=currentdb, port=port)` with the default
`allow_linking=False`.  The records that refetch retrieval returns are the
`refetched` parameter; `update_cache` first runs `_check_permissions` on
them, and when the check fails `_grant_permissions(False)` refuses, so
`update_cache` raises the not-linked `InsteonError`, aborting the write
with only the deletion-pass commands issued and any deferred `last_remove`
delete dropped.  (Under the identity semantics of `Address.pyEq` a
genuinely retrieved table — fresh `Address` objects — always fails this
check; see `addressesFreshFor`.)  On success the fresh target database is
`update`d from the refetched records, the free-offset cursor is its
`end_offset`, the addition pass runs, and the deferred delete is issued
last.  An exception anywhere truncates the trace at that point. -/
def genericWrite (modemAddr : Address) (srcdb currentdb refetched : LinkDB)
    (now : Timestamp) : List GCmd × Option Err :=
  match delPass modemAddr srcdb currentdb.records none with
  | (cs1, _, some e) => (cs1, some e)
  | (cs1, lastRemove, none) =>
    if genericCheckPermissions modemAddr refetched then
      let refreshed := LinkDB.updateDB ⟨[], none⟩ refetched now
      match addPass refreshed srcdb.records refreshed.endOffset with
      | (cs2, some e) => (cs1 ++ cs2, some e)
      | (cs2, none) =>
        match lastRemove with
        | none => (cs1 ++ cs2, none)
        | some r =>
          match removeCmd r with
          | Except.error e => (cs1 ++ cs2, some e)
          | Except.ok c => (cs1 ++ cs2 ++ [c], none)
    else (cs1, some Err.notLinkedController)

/-- A mutating `ManageALLLinkRecord` command of `ModemDBManager._write`:
delete-by-search (`controlCode 0x80`) or an add with the control code
computed from the record's controller bit. -/
inductive MCmd
  | mdelete (r : LinkRecord)
  | madd (controlCode : Nat) (r : LinkRecord)
deriving DecidableEq

/-- The deletion pass of `ModemDBManager._write`: every record of
`currentdb` — there is no active-flag check — whose offset-cleared pattern
is not found in `srcdb` gets a delete-by-search command.  Each command's
positive acknowledgment is assumed (a NACK raises and would truncate the
trace). -/
def modemDelPass (srcdb : LinkDB) : List LinkRecord → List MCmd
  | [] => []
  | r :: rest =>
    if srcdb.containsRec r.filterPattern then modemDelPass srcdb rest
    else MCmd.mdelete r :: modemDelPass srcdb rest

/-- The addition pass of `ModemDBManager._write`: every record of `srcdb`
whose offset-cleared pattern is not found in the refreshed current database
gets a manage-record add; the control code `0x40 if (flags & (1 << 6)) else
0x41` evaluates `None & ...` when `flags` is unset, a `TypeError`. -/
def modemAddPass (currentdb : LinkDB) :
    List LinkRecord → List MCmd × Option Err
  | [] => ([], none)
  | r :: rest =>
    if currentdb.containsRec r.filterPattern then modemAddPass currentdb rest
    else
      match r.flags with
      | none => ([], some Err.typeError)
      | some f =>
        let c := MCmd.madd (if f &&& 64 ≠ 0 then 0x40 else 0x41) r
        let res := modemAddPass currentdb rest
        (c :: res.1, res.2)

/-- `ModemDBManager._write(port, srcdb, currentdb)`: deletion pass over
`currentdb`, refetch (modelled by the `refreshed` parameter), addition pass
over `srcdb`.  Positive acknowledgments are assumed throughout. -/
def modemWrite (srcdb currentdb refreshed : LinkDB) :
    List MCmd × Option Err :=
  let cs1 := modemDelPass srcdb currentdb.records
  let res := modemAddPass refreshed srcdb.records
  (cs1 ++ res.1, res.2)

/-- One `ALLLinkRecordResponse` message consumed by
`ModemDBManager._retrieve`. -/
structure ModemRecMsg where
  linkAddr : Address
  allLinkGroup : Nat
  recordFlags : Nat
  linkData1 : Nat
  linkData2 : Nat
  linkData3 : Nat
deriving DecidableEq

/-- The record `ModemDBManager._retrieve` builds from one response message:
`LinkRecord(None, msg['LinkAddr'], msg['ALLLinkGroup'], msg['RecordFlags'],
[LinkData1..3])` — the offset argument is literally `None`.  Each record is
a fresh Python object; `oid` keeps them distinct. -/
def modemRecOfMsg (oid : Nat) (m : ModemRecMsg) : LinkRecord :=
  ⟨none, some m.linkAddr, some m.allLinkGroup, some m.recordFlags,
    some [m.linkData1, m.linkData2, m.linkData3], none, oid⟩

/-- The successful path of `ModemDBManager._retrieve`, as a function of the
record messages received before the done reply: build one record per
message, then `db = LinkDB(); db.update(records)`. -/
def modemRetrieve (msgs : List ModemRecMsg) (now : Timestamp) : LinkDB :=
  let records := msgs.enum.map (fun p => modemRecOfMsg p.1 p.2)
  LinkDB.updateList ⟨[], none⟩ records now

/-- An externally visible effect of `DBManager.flash_cache` /
`update_cache`: a retrieval of the remote table, the linking handshake of
`_grant_permissions`, the pre-mutation backup file write, or one mutating
command of the generic write. -/
inductive Effect
  | retrieveCmd
  | grantLinking
  | saveBackup
  | cmd (c : GCmd)
deriving DecidableEq

/-- `DBManager.update_cache` as instantiated by `GenericDBManager`:
retrieve (yielding `retrieved`); if the permission check fails, either
refuse (`allow_linking` false → `InsteonError`), raise when the linker
feature is missing, or run the linking handshake and retrieve again
(yielding `retrieved2`); finally merge into the target via `update`. -/
def updateCacheG (modemAddr : Address) (retrieved retrieved2 : LinkDB)
    (allowLinking hasLinkers : Bool) (now : Timestamp) (target : LinkDB) :
    List Effect × Except Err LinkDB :=
  if genericCheckPermissions modemAddr retrieved then
    ([Effect.retrieveCmd], Except.ok (target.updateDB retrieved now))
  else if !allowLinking then
    ([Effect.retrieveCmd], Except.error Err.notLinkedController)
  else if !hasLinkers then
    ([Effect.retrieveCmd], Except.error Err.cannotLink)
  else
    ([Effect.retrieveCmd, Effect.grantLinking, Effect.retrieveCmd],
      Except.ok (target.updateDB retrieved2 now))

/-- `DBManager.flash_cache(srcdb, ...)` as instantiated by
`GenericDBManager`.  The guard `if not srcdb.valid: raise` runs before any
retrieval, backup, or command.  On the success path: `update_cache` into a
fresh database, the backup file write, `_write` (its mid-call refetch
retrieval yielding `refetchedMid`), and a final `update_cache` (with the default
`allow_linking=False`), whose retrievals are `finalRetrieved` /
`finalRetrieved2`.  Returns the effect trace and the raised error, if
any. -/
def flashCacheG (modemAddr : Address) (srcdb : LinkDB)
    (retrieved retrieved2 : LinkDB) (allowLinking hasLinkers : Bool)
    (refetchedMid finalRetrieved finalRetrieved2 : LinkDB)
    (now : Timestamp) : List Effect × Option Err :=
  if !srcdb.valid then ([], some Err.unpopulatedSource)
  else
    match updateCacheG modemAddr retrieved retrieved2 allowLinking hasLinkers
        now ⟨[], none⟩ with
    | (es, Except.error e) => (es, some e)
    | (es, Except.ok currentdb) =>
      let es1 := es ++ [Effect.saveBackup]
      match genericWrite modemAddr srcdb currentdb refetchedMid now with
      | (cs, some e) => (es1 ++ cs.map Effect.cmd, some e)
      | (cs, none) =>
        let es2 := es1 ++ cs.map Effect.cmd
        match updateCacheG modemAddr finalRetrieved finalRetrieved2 false
            hasLinkers now ⟨[], none⟩ with
        | (es3, Except.error e) => (es2 ++ es3, some e)
        | (es3, Except.ok _) => (es2 ++ es3, none)

/-- Modelled from the spec: `Address.packed`, used by `LinkRecord.packed`
but not present under `src/` — per the spec an `Address` is a "3-byte device
identifier (hi, mid, low)" and serialization round-trips must be lossless,
so the packed form carries exactly the three bytes. -/
structure PackedAddress where
  b1 : Nat
  b2 : Nat
  b3 : Nat
deriving DecidableEq

/-- Modelled from the spec: `Address.packed` serializes the three component
bytes. -/
def Address.packedA (a : Address) : PackedAddress := ⟨a.hi, a.mid, a.low⟩

/-- Modelled from the spec: `Address.unpack` reconstructs an `Address` from
its three packed bytes.  The result is a fresh Python object; its identity
(`oid`) is arbitrary and never consulted by deserialization, so 0 is
used. -/
def Address.unpackA (p : PackedAddress) : Address := ⟨p.b1, p.b2, p.b3, 0⟩

/-- The dictionary `LinkRecord.packed` builds: the `offset` key is present
only when the offset is truthy; the other keys always exist but may hold
`None` (serialized as JSON null and restored as `None`). -/
structure PackedRecord where
  offset : Option Nat
  address : PackedAddress
  group : Option Nat
  flags : Option Nat
  data : Option (List Nat)
deriving DecidableEq

/-- `LinkRecord.packed`: both branches evaluate `self.address.packed`, which
raises `AttributeError` when the address is `None` (hence `Option`); the
offset key is included only under `if self.offset:` — Python truthiness, so
offset 0 is dropped exactly like `None`.  The filter mask is never
written. -/
def recPacked (r : LinkRecord) : Option PackedRecord :=
  r.address.map (fun a =>
    { offset := if truthyN r.offset then r.offset else none
      address := a.packedA
      group := r.group
      flags := r.flags
      data := r.data })

/-- `LinkRecord.unpack`: rebuild through the constructor, offset `None` when
the key is absent; the filter-mask arguments keep their defaults, so the
mask is `None`.  A fresh object, so `oid` 0. -/
def recUnpack (p : PackedRecord) : LinkRecord :=
  ⟨p.offset, some (Address.unpackA p.address), p.group, p.flags, p.data,
    none, 0⟩

/-- The dictionary `LinkDB.packed` builds / `LinkDB.unpack` consumes; both
keys are optional on the unpack side (`'timestamp' in packed`,
`'records' in packed`). -/
structure PackedDB where
  timestamp : Option TsSec
  records : Option (List PackedRecord)
deriving DecidableEq

/-- The record loop of `LinkDB.packed`: each record packed in order; a
record that raises (no address) aborts the whole call, as the Python
exception would. -/
def packRecords : List LinkRecord → Option (List PackedRecord)
  | [] => some []
  | r :: rest =>
    match recPacked r with
    | none => none
    | some pr => (packRecords rest).map (fun prs => pr :: prs)

/-- `LinkDB.packed`: `self.timestamp.strftime(...)` raises on `None` (hence
`Option`), then every record is packed in order. -/
def dbPacked (db : LinkDB) : Option PackedDB :=
  match db.timestamp with
  | none => none
  | some ts =>
    (packRecords db.records).map (fun rs =>
      { timestamp := some (tsDump ts), records := some rs })

/-- `LinkDB.unpack`: parse the timestamp when the key is present, unpack
each packed record in order. -/
def dbUnpack (p : PackedDB) : LinkDB :=
  { records := (p.records.getD []).map recUnpack
    timestamp := p.timestamp.map tsParse }

/-- The three serialized payload bytes of an address, for stating that a
round trip preserves an optional address byte-wise (object identities are
fresh after a round trip, so byte-wise comparison is the meaningful
one). -/
def addrBytesOpt (a : Option Address) : Option (List Nat) :=
  a.map Address.bytesOf

/-- The attribute names `Port.__init__` sets (`src/insteon/io/port.py`).
Neither `_conn` nor `successful` is among them — `start` receives the
connection only as a local, and `successful` is an attribute of `Request`,
not `Port`. -/
def portInitAttrs : List String :=
  ["defs", "_queue", "_open_requests", "_write_handlers", "_read_handlers",
    "_task"]

/-- Python attribute lookup on a `Port` object as `__init__` leaves it. -/
def portHasAttr (a : String) : Bool := portInitAttrs.contains a

/-- What one try's `wait_for` would produce if reached: the awaited wait
completed (so the code proceeds to `self.successful.is_set()`) or it timed
out (the `asyncio.TimeoutError` handler sets the failure flag and loops). -/
inductive TryOutcome
  | signalled
  | timedOut
deriving DecidableEq

/-- The retry loop of `Port._run_writer` serving one request: for each try
the loop first evaluates `self._conn` (before any byte can be written — an
`AttributeError` here aborts the loop with the write count unchanged), then
writes, then waits; a `signalled` wait reaches `self.successful.is_set()`,
another attribute lookup on the port.  Returns the number of writes
performed and the exception that escaped the loop, if any. -/
def runWriterTries (outcome : Nat → TryOutcome) :
    Nat → Nat → Nat × Option Err
  | 0, writes => (writes, none)
  | n + 1, writes =>
    if !portHasAttr ("_conn") then (writes, some Err.attributeError)
    else
      match outcome writes with
      | TryOutcome.timedOut => runWriterTries outcome n (writes + 1)
      | TryOutcome.signalled =>
        if !portHasAttr ("successful") then
          (writes + 1, some Err.attributeError)
        else (writes + 1, none)

/-- The two source-level conditions of the self-link deferral that depend
only on the record: `record.address == modem_addr and record.responder`.
For a record whose flags are set, `isDeferral` is this conjoined with
`last_remove` still being `None`. -/
def deferrableRec (modemAddr : Address) (r : LinkRecord) : Bool :=
  (match r.address with
    | some a => Address.pyEq a modemAddr
    | none => false)
  && (match r.flags with
    | some f => f &&& 64 == 0
    | none => false)

/-- The address situation of every database the retrievals actually build:
each record carries a freshly constructed `Address` object (dbmanager.py
lines 153 and 252), so its identity differs from the modem address
object's, and no record's address is `None`. -/
def addressesFreshFor (m : Address) (db : LinkDB) : Bool :=
  db.records.all (fun r =>
    match r.address with
    | some a => !(a.oid == m.oid)
    | none => false)

/-! Concrete objects used by counterexamples and witnesses. -/

/-- A modem address object. -/
def mA : Address := ⟨1, 2, 3, 0⟩

/-- A distinct peer address object. -/
def aB : Address := ⟨4, 5, 6, 9⟩

/-- An address with the modem's bytes but a distinct object identity, as
`_retrieve` constructs for every record of a retrieved table. -/
def mAFresh : Address := ⟨1, 2, 3, 5⟩

/-- The modem's self-link record as it appears in a *retrieved* table: the
modem's bytes in a fresh `Address` object, active responder flags. -/
def rRespFresh : LinkRecord := ⟨some 0xff8, some mAFresh, some 1, some 0xA2, some [0, 0, 0], none, 1⟩

/-- An active responder record carrying the modem's address object. -/
def rResp : LinkRecord := ⟨some 0xff8, some mA, some 1, some 0xA2, some [0, 0, 0], none, 1⟩

/-- An active responder record for another peer. -/
def rOther : LinkRecord := ⟨some 0xff0, some aB, some 1, some 0xA2, some [0, 0, 0], none, 2⟩

/-- An inactive record (flags bit 7 clear) for another peer. -/
def rInact : LinkRecord := ⟨some 0xff8, some aB, some 1, some 0x22, some [0, 0, 0], none, 3⟩

/-- A record occupying the slot at offset `0x08`, the lowest legal one. -/
def rFloor : LinkRecord := ⟨some 0x08, some aB, some 2, some 0xE2, some [1, 1, 1], none, 4⟩

/-- A record with offset 0 (a set offset that Python truthiness drops). -/
def rZero : LinkRecord := ⟨some 0, some aB, some 1, some 0xA2, some [0, 0, 0], none, 1⟩

/-- A record with offset `0x0fff`. -/
def rTop : LinkRecord := ⟨some 0x0fff, some aB, some 1, some 0xA2, some [0, 0, 0], none, 1⟩

/-- A concrete timestamp with nonzero microseconds. -/
def ts0 : Timestamp := ⟨⟨1, 2, 2020, 3, 4, 5⟩, 6⟩

/-! ## Helper lemmas -/

theorem endOffsetStep_offset_none (acc : Int) (r : LinkRecord)
    (h : r.offset = none) : endOffsetStep acc r = acc := by
  simp [endOffsetStep, h]

theorem foldl_endOffsetStep_all_none :
    ∀ (rs : List LinkRecord) (acc : Int), (∀ r ∈ rs, r.offset = none) →
      rs.foldl endOffsetStep acc = acc := by
  intro rs
  induction rs with
  | nil => intro acc _; rfl
  | cons r rest ih =>
    intro acc h
    have hr : r.offset = none := h r (List.mem_cons_self r rest)
    simp only [List.foldl_cons, endOffsetStep_offset_none acc r hr]
    exact ih acc (fun x hx => h x (List.mem_cons_of_mem r hx))

theorem mem_records_add (db : LinkDB) (r x : LinkRecord)
    (h : x ∈ (db.add r).records) : x ∈ db.records ∨ x = r := by
  unfold LinkDB.add at h
  split at h
  · exact Or.inl h
  · rcases List.mem_append.mp h with h1 | h1
    · exact Or.inl h1
    · exact Or.inr (List.mem_singleton.mp h1)

theorem mem_records_foldl_add :
    ∀ (rs : List LinkRecord) (db : LinkDB) (x : LinkRecord),
      x ∈ (rs.foldl LinkDB.add db).records → x ∈ db.records ∨ x ∈ rs := by
  intro rs
  induction rs with
  | nil => intro db x h; exact Or.inl h
  | cons r rest ih =>
    intro db x h
    rcases ih (db.add r) x h with h1 | h1
    · rcases mem_records_add db r x h1 with h2 | h2
      · exact Or.inl h2
      · exact Or.inr (h2 ▸ List.mem_cons_self r rest)
    · exact Or.inr (List.mem_cons_of_mem r h1)

/-- The permission-check filter pattern matches a record exactly on the
address field: every other field of the pattern is unset (so skipped), and
its flags are unset too, so the filter-mask branch is never reached. -/
theorem matches_perm_filter (modemAddr : Address) (m : LinkRecord) :
    LinkRecord.matches ⟨none, some modemAddr, none, none, none, some 64, 0⟩ m
      = (match m.address with
          | some b => Address.pyEq modemAddr b
          | none => true) := by
  cases ha : m.address with
  | none => simp [LinkRecord.matches, ha]
  | some b =>
    cases hb : Address.pyEq modemAddr b <;>
      simp [LinkRecord.matches, ha, hb]

/-- Propositional form of `matches_perm_filter`: the pattern matches a
record iff the record's address is unset or is the very modem address
object. -/
theorem matches_perm_filter_iff (modemAddr : Address) (m : LinkRecord) :
    LinkRecord.matches ⟨none, some modemAddr, none, none, none, some 64, 0⟩ m
        = true ↔
      (m.address = none ∨ ∃ a, m.address = some a ∧ a.oid = modemAddr.oid) := by
  rw [matches_perm_filter]
  cases ha : m.address with
  | none => simp
  | some a =>
    simp only [Option.some.injEq, reduceCtorEq, false_or]
    constructor
    · intro h
      have h2 : modemAddr.oid = a.oid := by
        simp only [Address.pyEq, beq_iff_eq] at h
        exact h
      exact ⟨a, rfl, h2.symm⟩
    · rintro ⟨b, hb, hoid⟩
      cases hb
      simp [Address.pyEq, hoid]

/-! ## C1 — the generic permission check -/

/-- C1 (counterexample): the claim says `_check_permissions` is true iff
some record has the modem's address *and* its controller bit set.  On a
database whose only record carries the modem's address with the controller
bit clear (flags `0xA2`, a responder record), the check nevertheless
returns true: the filter pattern's `flags` are `None`, so the controller
bit is never compared. -/
theorem c1_check_permissions_counterexample :
    genericCheckPermissions mA ⟨[rResp], none⟩ = true ∧
      ∀ r ∈ (LinkDB.mk [rResp] none).records,
        r.controllerProp = some false := by
  decide

/-- C1 (amended): `_check_permissions` returns true iff some record's
address is unset or is the modem's address object (Python identity
equality); no other field — the controller bit included — is constrained,
because the pattern `LinkRecord(address=modem_addr,
filter_flags_mask=(1 << 6))` leaves `flags` unset and `matches` skips the
flags clause entirely, so the filter mask is inert. -/
theorem c1_check_permissions_address_only (modemAddr : Address)
    (db : LinkDB) :
    genericCheckPermissions modemAddr db = true ↔
      ∃ r ∈ db.records, r.address = none ∨
        ∃ a, r.address = some a ∧ a.oid = modemAddr.oid := by
  have hred : genericCheckPermissions modemAddr db
      = db.containsRec ⟨none, some modemAddr, none, none, none, some 64, 0⟩ :=
    rfl
  rw [hred]
  unfold LinkDB.containsRec
  rw [List.any_eq_true]
  constructor
  · rintro ⟨r, hr, hm⟩
    exact ⟨r, hr, (matches_perm_filter_iff modemAddr r).mp hm⟩
  · rintro ⟨r, hr, hcase⟩
    exact ⟨r, hr, (matches_perm_filter_iff modemAddr r).mpr hcase⟩

/-! Unfolding lemmas for the generic deletion pass. -/

theorem activeProp_eq (r : LinkRecord) (f : Nat) (hf : r.flags = some f) :
    r.activeProp = some (decide (f &&& 128 > 0)) := by
  simp [LinkRecord.activeProp, hf]

theorem isDeferral_eq (m : Address) (r : LinkRecord) (f : Nat)
    (lr : Option LinkRecord) (hf : r.flags = some f) :
    isDeferral m r f lr = (deferrableRec m r && lr.isNone) := by
  simp [isDeferral, deferrableRec, hf]

theorem delPass_cons_flags_none (m : Address) (src : LinkDB)
    (r : LinkRecord) (rest : List LinkRecord) (lr : Option LinkRecord)
    (hf : r.flags = none) :
    delPass m src (r :: rest) lr = ([], lr, some Err.typeError) := by
  simp [delPass, hf]

theorem delPass_cons_inactive (m : Address) (src : LinkDB) (r : LinkRecord)
    (rest : List LinkRecord) (lr : Option LinkRecord) (f : Nat)
    (hf : r.flags = some f) (hact : (f &&& 128 == 0) = true) :
    delPass m src (r :: rest) lr = delPass m src rest lr := by
  simp [delPass, hf, hact]

theorem delPass_cons_insrc (m : Address) (src : LinkDB) (r : LinkRecord)
    (rest : List LinkRecord) (lr : Option LinkRecord) (f : Nat)
    (hf : r.flags = some f) (hact : (f &&& 128 == 0) = false)
    (hc : src.containsRec r.filterPattern = true) :
    delPass m src (r :: rest) lr = delPass m src rest lr := by
  simp [delPass, hf, hact, hc]

theorem delPass_cons_defer (m : Address) (src : LinkDB) (r : LinkRecord)
    (rest : List LinkRecord) (lr : Option LinkRecord) (f : Nat)
    (hf : r.flags = some f) (hact : (f &&& 128 == 0) = false)
    (hc : src.containsRec r.filterPattern = false)
    (hd : isDeferral m r f lr = true) :
    delPass m src (r :: rest) lr = delPass m src rest (some r) := by
  simp [delPass, hf, hact, hc, hd]

theorem delPass_cons_offset_none (m : Address) (src : LinkDB)
    (r : LinkRecord) (rest : List LinkRecord) (lr : Option LinkRecord)
    (f : Nat) (hf : r.flags = some f) (hact : (f &&& 128 == 0) = false)
    (hc : src.containsRec r.filterPattern = false)
    (hd : isDeferral m r f lr = false) (ho : r.offset = none) :
    delPass m src (r :: rest) lr = ([], lr, some Err.typeError) := by
  simp [delPass, hf, hact, hc, hd, removeCmd, ho]

theorem delPass_cons_remove (m : Address) (src : LinkDB) (r : LinkRecord)
    (rest : List LinkRecord) (lr : Option LinkRecord) (f o : Nat)
    (hf : r.flags = some f) (hact : (f &&& 128 == 0) = false)
    (hc : src.containsRec r.filterPattern = false)
    (hd : isDeferral m r f lr = false) (ho : r.offset = some o) :
    delPass m src (r :: rest) lr
      = (GCmd.remove r :: (delPass m src rest lr).1,
          (delPass m src rest lr).2.1, (delPass m src rest lr).2.2) := by
  simp [delPass, hf, hact, hc, hd, removeCmd, ho]

/-- Once `last_remove` is set it stays set: the deferral guard requires it
to still be `None`, and no branch clears it. -/
theorem delPass_lr_stable (m : Address) (src : LinkDB) :
    ∀ (rs : List LinkRecord) (x : LinkRecord),
      (delPass m src rs (some x)).2.1 = some x := by
  intro rs
  induction rs with
  | nil => intro x; rfl
  | cons r rest ih =>
    intro x
    cases hf : r.flags with
    | none => rw [delPass_cons_flags_none m src r rest (some x) hf]
    | some f =>
      by_cases hact : (f &&& 128 == 0) = true
      · rw [delPass_cons_inactive m src r rest (some x) f hf hact]
        exact ih x
      · rw [Bool.not_eq_true] at hact
        by_cases hc : src.containsRec r.filterPattern = true
        · rw [delPass_cons_insrc m src r rest (some x) f hf hact hc]
          exact ih x
        · rw [Bool.not_eq_true] at hc
          have hd : isDeferral m r f (some x) = false := by
            rw [isDeferral_eq m r f (some x) hf]
            simp
          cases ho : r.offset with
          | none =>
            rw [delPass_cons_offset_none m src r rest (some x) f hf hact hc
              hd ho]
          | some o =>
            rw [delPass_cons_remove m src r rest (some x) f o hf hact hc
              hd ho]
            exact ih x

/-- Every command the deletion pass issues is a delete of an active record
of the walked list whose offset-cleared pattern is not in `srcdb`. -/
theorem delPass_removes (m : Address) (src : LinkDB) :
    ∀ (rs : List LinkRecord) (lr : Option LinkRecord) (c : GCmd),
      c ∈ (delPass m src rs lr).1 →
      ∃ r, c = GCmd.remove r ∧ r ∈ rs ∧ r.activeProp = some true ∧
        src.containsRec r.filterPattern = false := by
  intro rs
  induction rs with
  | nil => intro lr c hc; simp [delPass] at hc
  | cons r rest ih =>
    intro lr c hc
    cases hf : r.flags with
    | none =>
      rw [delPass_cons_flags_none m src r rest lr hf] at hc
      simp at hc
    | some f =>
      by_cases hact : (f &&& 128 == 0) = true
      · rw [delPass_cons_inactive m src r rest lr f hf hact] at hc
        rcases ih lr c hc with ⟨x, hcx, hx, hx2, hx3⟩
        exact ⟨x, hcx, List.mem_cons_of_mem r hx, hx2, hx3⟩
      · rw [Bool.not_eq_true] at hact
        by_cases hc2 : src.containsRec r.filterPattern = true
        · rw [delPass_cons_insrc m src r rest lr f hf hact hc2] at hc
          rcases ih lr c hc with ⟨x, hcx, hx, hx2, hx3⟩
          exact ⟨x, hcx, List.mem_cons_of_mem r hx, hx2, hx3⟩
        · rw [Bool.not_eq_true] at hc2
          by_cases hd : isDeferral m r f lr = true
          · rw [delPass_cons_defer m src r rest lr f hf hact hc2 hd] at hc
            rcases ih (some r) c hc with ⟨x, hcx, hx, hx2, hx3⟩
            exact ⟨x, hcx, List.mem_cons_of_mem r hx, hx2, hx3⟩
          · rw [Bool.not_eq_true] at hd
            cases ho : r.offset with
            | none =>
              rw [delPass_cons_offset_none m src r rest lr f hf hact hc2 hd
                ho] at hc
              simp at hc
            | some o =>
              rw [delPass_cons_remove m src r rest lr f o hf hact hc2 hd
                ho] at hc
              rcases List.mem_cons.mp hc with h1 | h1
              · refine ⟨r, h1, List.mem_cons_self r rest, ?_, hc2⟩
                rw [activeProp_eq r f hf]
                have : f &&& 128 ≠ 0 := by
                  intro h0
                  rw [h0] at hact
                  simp at hact
                simp [Nat.pos_of_ne_zero this]
              · rcases ih lr c h1 with ⟨x, hcx, hx, hx2, hx3⟩
                exact ⟨x, hcx, List.mem_cons_of_mem r hx, hx2, hx3⟩

/-- If the deletion pass completes without an exception, every active
record of the walked list whose pattern is not in `srcdb` was either
deleted or deferred into `last_remove`. -/
theorem delPass_complete (m : Address) (src : LinkDB) :
    ∀ (rs : List LinkRecord) (lr : Option LinkRecord) (cs : List GCmd)
      (lr' : Option LinkRecord)
      (h : delPass m src rs lr = (cs, lr', none)) (r : LinkRecord)
      (hmem : r ∈ rs) (hact : r.activeProp = some true)
      (hnc : src.containsRec r.filterPattern = false),
      GCmd.remove r ∈ cs ∨ lr' = some r := by
  intro rs
  induction rs with
  | nil => intro lr cs lr' h r hmem _ _; exact absurd hmem (List.not_mem_nil r)
  | cons x rest ih =>
    intro lr cs lr' h r hmem hact hnc
    cases hf : x.flags with
    | none =>
      rw [delPass_cons_flags_none m src x rest lr hf] at h
      exact absurd (congrArg (fun p => p.2.2) h) (by simp)
    | some f =>
      by_cases hactx : (f &&& 128 == 0) = true
      · rw [delPass_cons_inactive m src x rest lr f hf hactx] at h
        have hfz : f &&& 128 = 0 := by simpa using hactx
        have hrx : r ≠ x := by
          intro he
          rw [he, activeProp_eq x f hf, hfz] at hact
          simp at hact
        rcases List.mem_cons.mp hmem with h1 | h1
        · exact absurd h1 hrx
        · exact ih lr cs lr' h r h1 hact hnc
      · rw [Bool.not_eq_true] at hactx
        by_cases hcx : src.containsRec x.filterPattern = true
        · rw [delPass_cons_insrc m src x rest lr f hf hactx hcx] at h
          have hrx : r ≠ x := by
            intro he
            rw [← he] at hcx
            rw [hnc] at hcx
            exact absurd hcx (by simp)
          rcases List.mem_cons.mp hmem with h1 | h1
          · exact absurd h1 hrx
          · exact ih lr cs lr' h r h1 hact hnc
        · rw [Bool.not_eq_true] at hcx
          by_cases hdx : isDeferral m x f lr = true
          · rw [delPass_cons_defer m src x rest lr f hf hactx hcx hdx] at h
            rcases List.mem_cons.mp hmem with h1 | h1
            · right
              have hst := delPass_lr_stable m src rest x
              rw [h] at hst
              rw [h1]
              exact hst
            · exact ih (some x) cs lr' h r h1 hact hnc
          · rw [Bool.not_eq_true] at hdx
            cases ho : x.offset with
            | none =>
              rw [delPass_cons_offset_none m src x rest lr f hf hactx hcx
                hdx ho] at h
              exact absurd (congrArg (fun p => p.2.2) h) (by simp)
            | some o =>
              rcases hrec : delPass m src rest lr with ⟨cs', lr'', e'⟩
              rw [delPass_cons_remove m src x rest lr f o hf hactx hcx hdx
                ho, hrec] at h
              have hcs : GCmd.remove x :: cs' = cs :=
                congrArg Prod.fst h
              have hlr : lr'' = lr' := congrArg (fun p => p.2.1) h
              have he : e' = (none : Option Err) :=
                congrArg (fun p => p.2.2) h
              rcases List.mem_cons.mp hmem with h1 | h1
              · left
                rw [← hcs, h1]
                exact List.mem_cons_self _ _
              · rw [he] at hrec
                rcases ih lr cs' lr'' hrec r h1 hact hnc with h2 | h2
                · left
                  rw [← hcs]
                  exact List.mem_cons_of_mem _ h2
                · right
                  rw [← hlr]
                  exact h2

/-- Where a deferred record can come from: it was already deferred when the
walk started, or it is an active, not-in-source, deferrable member of the
walked list. -/
theorem delPass_lr_origin (m : Address) (src : LinkDB) :
    ∀ (rs : List LinkRecord) (lr : Option LinkRecord) (r : LinkRecord),
      (delPass m src rs lr).2.1 = some r →
      lr = some r ∨ (r ∈ rs ∧ r.activeProp = some true ∧
        src.containsRec r.filterPattern = false ∧ deferrableRec m r = true) := by
  intro rs
  induction rs with
  | nil => intro lr r h; exact Or.inl h
  | cons x rest ih =>
    intro lr r h
    cases hf : x.flags with
    | none =>
      rw [delPass_cons_flags_none m src x rest lr hf] at h
      exact Or.inl h
    | some f =>
      by_cases hactx : (f &&& 128 == 0) = true
      · rw [delPass_cons_inactive m src x rest lr f hf hactx] at h
        rcases ih lr r h with h1 | ⟨h1, h2, h3, h4⟩
        · exact Or.inl h1
        · exact Or.inr ⟨List.mem_cons_of_mem x h1, h2, h3, h4⟩
      · rw [Bool.not_eq_true] at hactx
        have hxact : x.activeProp = some true := by
          rw [activeProp_eq x f hf]
          have hne : f &&& 128 ≠ 0 := by
            intro h0
            rw [h0] at hactx
            simp at hactx
          simp [Nat.pos_of_ne_zero hne]
        by_cases hcx : src.containsRec x.filterPattern = true
        · rw [delPass_cons_insrc m src x rest lr f hf hactx hcx] at h
          rcases ih lr r h with h1 | ⟨h1, h2, h3, h4⟩
          · exact Or.inl h1
          · exact Or.inr ⟨List.mem_cons_of_mem x h1, h2, h3, h4⟩
        · rw [Bool.not_eq_true] at hcx
          by_cases hdx : isDeferral m x f lr = true
          · rw [delPass_cons_defer m src x rest lr f hf hactx hcx hdx] at h
            have hdefx : deferrableRec m x = true := by
              rw [isDeferral_eq m x f lr hf] at hdx
              simp only [Bool.and_eq_true] at hdx
              exact hdx.1
            rcases ih (some x) r h with h1 | ⟨h1, h2, h3, h4⟩
            · right
              have hxr : x = r := Option.some.inj h1
              exact hxr ▸ ⟨List.mem_cons_self x rest, hxact, hcx, hdefx⟩
            · exact Or.inr ⟨List.mem_cons_of_mem x h1, h2, h3, h4⟩
          · rw [Bool.not_eq_true] at hdx
            cases ho : x.offset with
            | none =>
              rw [delPass_cons_offset_none m src x rest lr f hf hactx hcx
                hdx ho] at h
              exact Or.inl h
            | some o =>
              rw [delPass_cons_remove m src x rest lr f o hf hactx hcx hdx
                ho] at h
              rcases ih lr r h with h1 | ⟨h1, h2, h3, h4⟩
              · exact Or.inl h1
              · exact Or.inr ⟨List.mem_cons_of_mem x h1, h2, h3, h4⟩

/-! Lemmas for the modem write passes. -/

theorem modemDelPass_mem (src : LinkDB) :
    ∀ (rs : List LinkRecord) (r : LinkRecord),
      MCmd.mdelete r ∈ modemDelPass src rs ↔
        (r ∈ rs ∧ src.containsRec r.filterPattern = false) := by
  intro rs
  induction rs with
  | nil => intro r; simp [modemDelPass]
  | cons x rest ih =>
    intro r
    by_cases hcx : src.containsRec x.filterPattern = true
    · rw [show modemDelPass src (x :: rest) = modemDelPass src rest by
        simp [modemDelPass, hcx]]
      constructor
      · intro h
        rcases (ih r).mp h with ⟨h1, h2⟩
        exact ⟨List.mem_cons_of_mem x h1, h2⟩
      · rintro ⟨h1, h2⟩
        rcases List.mem_cons.mp h1 with h3 | h3
        · rw [h3] at h2
          rw [h2] at hcx
          exact absurd hcx (by simp)
        · exact (ih r).mpr ⟨h3, h2⟩
    · rw [Bool.not_eq_true] at hcx
      rw [show modemDelPass src (x :: rest)
          = MCmd.mdelete x :: modemDelPass src rest by
        simp [modemDelPass, hcx]]
      constructor
      · intro h
        rcases List.mem_cons.mp h with h1 | h1
        · have hrx : r = x := MCmd.mdelete.inj h1
          exact ⟨hrx ▸ List.mem_cons_self x rest, hrx ▸ hcx⟩
        · rcases (ih r).mp h1 with ⟨h2, h3⟩
          exact ⟨List.mem_cons_of_mem x h2, h3⟩
      · rintro ⟨h1, h2⟩
        rcases List.mem_cons.mp h1 with h3 | h3
        · rw [h3]
          exact List.mem_cons_self _ _
        · exact List.mem_cons_of_mem _ ((ih r).mpr ⟨h3, h2⟩)

theorem modemAddPass_adds (cur : LinkDB) :
    ∀ (rs : List LinkRecord) (c : MCmd), c ∈ (modemAddPass cur rs).1 →
      ∃ ctrl x, c = MCmd.madd ctrl x := by
  intro rs
  induction rs with
  | nil => intro c hc; simp [modemAddPass] at hc
  | cons x rest ih =>
    intro c hc
    by_cases hcx : cur.containsRec x.filterPattern = true
    · rw [show modemAddPass cur (x :: rest) = modemAddPass cur rest by
        simp [modemAddPass, hcx]] at hc
      exact ih c hc
    · rw [Bool.not_eq_true] at hcx
      cases hf : x.flags with
      | none =>
        rw [show modemAddPass cur (x :: rest) = ([], some Err.typeError) by
          simp [modemAddPass, hcx, hf]] at hc
        simp at hc
      | some f =>
        rw [show modemAddPass cur (x :: rest)
            = (MCmd.madd (if f &&& 64 ≠ 0 then 0x40 else 0x41) x
                :: (modemAddPass cur rest).1,
              (modemAddPass cur rest).2) by
          simp [modemAddPass, hcx, hf]] at hc
        rcases List.mem_cons.mp hc with h1 | h1
        · exact ⟨_, x, h1⟩
        · exact ih c h1

theorem modemWrite_trace (src cur refreshed : LinkDB) (mt : List MCmd)
    (e : Option Err) (hmt : modemWrite src cur refreshed = (mt, e)) :
    mt = modemDelPass src cur.records
      ++ (modemAddPass refreshed src.records).1 := by
  have h := congrArg Prod.fst hmt
  simpa [modemWrite] using h.symm

/-- A database whose records all carry fresh address objects (the case for
every actual retrieval) fails the generic permission check: the filter
pattern constrains only the address, by identity. -/
theorem checkPermissions_false_of_fresh (m : Address) (db : LinkDB)
    (h : addressesFreshFor m db = true) :
    genericCheckPermissions m db = false := by
  rw [Bool.eq_false_iff]
  intro hp
  have hred : genericCheckPermissions m db
      = db.containsRec ⟨none, some m, none, none, none, some 64, 0⟩ := rfl
  rw [hred] at hp
  unfold LinkDB.containsRec at hp
  rcases List.any_eq_true.mp hp with ⟨r, hr, hm⟩
  have hfresh : (match r.address with
      | some a => !(a.oid == m.oid)
      | none => false) = true := by
    unfold addressesFreshFor at h
    exact List.all_eq_true.mp h r hr
  rcases (matches_perm_filter_iff m r).mp hm with h1 | ⟨a, ha, hoid⟩
  · rw [h1] at hfresh
    simp at hfresh
  · rw [ha] at hfresh
    simp at hfresh
    exact hfresh hoid

/-! ## C2 — self-link deferral -/

/-- C2: the claim (with the spec and the source's own comments `# When
nuking a database unlink the modem last`, `# Don't delete the modem record,
we need that`) says the delete of the record for the modem's own address is
the last mutating command of the write call.  In an actual run the record
carrying the modem's address in a retrieved `currentDb` holds a fresh
`Address` object, so the deferral guard `record.address == modem_addr`
(object identity — `Address` defines no `__eq__`) never fires: here the
self-link record `rRespFresh` (the modem's bytes, distinct identity, active
responder flags) is deleted *first*, before another record's delete, and
the call then raises the not-linked error at the mid-call refetch — so a
deferred final delete can never be issued either.  The claimed
delete-comes-last behaviour is unreachable. -/
theorem c2_self_link_not_deferred :
    genericWrite mA ⟨[], some ts0⟩ ⟨[rRespFresh, rOther], none⟩
        ⟨[rRespFresh], none⟩ ts0
      = ([GCmd.remove rRespFresh, GCmd.remove rOther],
          some Err.notLinkedController) ∧
      Address.bytesOf mAFresh = Address.bytesOf mA ∧
      rRespFresh.address = some mAFresh ∧
      rRespFresh.controllerProp = some false ∧
      rRespFresh.activeProp = some true := by
  decide

/-! ## C3 — which records get deletes -/

/-- C3 (counterexample): the claim says that in both strategies no delete
is ever issued for an inactive record.  The modem strategy's deletion pass
has no active-flag check: with `currentDb` holding only the inactive record
`rInact` (flags `0x22`, bit 7 clear) and an empty `srcDb`, `ModemDBManager.
_write` issues a delete for it. -/
theorem c3_inactive_delete_counterexample :
    modemWrite ⟨[], some ts0⟩ ⟨[rInact], none⟩ ⟨[], none⟩
        = ([MCmd.mdelete rInact], none) ∧
      rInact.activeProp = some false := by
  decide

/-- C3 (amended): in the generic strategy, for a deletion pass that
completes without raising over a `currentDb` none of whose records is
deferrable — carries the modem's own address *object* with the controller
bit clear, which no retrieved database's records do, their `Address`
objects being fresh — the deletion pass issues a delete exactly for every
active record whose offset-cleared pattern does not match `srcDb`, and
never for an inactive record.  In the modem strategy (commands positively
acknowledged), a delete is issued exactly for every record whose pattern
does not match `srcDb`: there is no active-flag check. -/
theorem c3_deletion_exactness (m : Address) (src cur refreshed : LinkDB)
    (cs1 : List GCmd) (lr' : Option LinkRecord) (mt : List MCmd)
    (r : LinkRecord)
    (hdel : delPass m src cur.records none = (cs1, lr', none))
    (hnodef : ∀ r' ∈ cur.records, deferrableRec m r' = false)
    (hmt : modemWrite src cur refreshed = (mt, none)) :
    (GCmd.remove r ∈ cs1 ↔ (r ∈ cur.records ∧ r.activeProp = some true ∧
      src.containsRec r.filterPattern = false)) ∧
    (MCmd.mdelete r ∈ mt ↔ (r ∈ cur.records ∧
      src.containsRec r.filterPattern = false)) := by
  constructor
  · constructor
    · intro hmem
      have hmem' : GCmd.remove r ∈ (delPass m src cur.records none).1 := by
        rw [hdel]
        exact hmem
      rcases delPass_removes m src cur.records none _ hmem' with
        ⟨x, hx, hxm, hxa, hxc⟩
      have hxr : r = x := GCmd.remove.inj hx
      exact ⟨hxr ▸ hxm, hxr ▸ hxa, hxr ▸ hxc⟩
    · rintro ⟨hmem, hact, hnc⟩
      rcases delPass_complete m src cur.records none cs1 lr' hdel r hmem
        hact hnc with h1 | h1
      · exact h1
      · have hproj : (delPass m src cur.records none).2.1 = some r := by
          rw [hdel]
          exact h1
        rcases delPass_lr_origin m src cur.records none r hproj with
          h2 | ⟨h2, _, _, h5⟩
        · exact absurd h2 (by simp)
        · rw [hnodef r h2] at h5
          exact absurd h5 (by simp)
  · have hmtrace := modemWrite_trace src cur refreshed mt none hmt
    rw [hmtrace]
    constructor
    · intro hmem
      rcases List.mem_append.mp hmem with h1 | h1
      · exact (modemDelPass_mem src cur.records r).mp h1
      · rcases modemAddPass_adds refreshed src.records _ h1 with
          ⟨ctrl, x, hx⟩
        exact absurd hx (by simp)
    · intro hpair
      exact List.mem_append.mpr
        (Or.inl ((modemDelPass_mem src cur.records r).mpr hpair))

/-- Witness for C3 (amended) at a concrete database: both strategies delete
exactly the active record `rOther` absent from the empty `srcDb`. -/
theorem c3_deletion_exactness_witness :
    (GCmd.remove rOther ∈ [GCmd.remove rOther] ↔
      (rOther ∈ (LinkDB.mk [rOther] none).records ∧
        rOther.activeProp = some true ∧
        LinkDB.containsRec ⟨[], some ts0⟩ rOther.filterPattern = false)) ∧
    (MCmd.mdelete rOther ∈ [MCmd.mdelete rOther] ↔
      (rOther ∈ (LinkDB.mk [rOther] none).records ∧
        LinkDB.containsRec ⟨[], some ts0⟩ rOther.filterPattern = false)) :=
  c3_deletion_exactness mA ⟨[], some ts0⟩ ⟨[rOther], none⟩ ⟨[], none⟩
    [GCmd.remove rOther] none [MCmd.mdelete rOther] rOther
    (by decide) (by decide) (by decide)

/-! ## C4 — out of space -/

/-- C4: the claim (with the spec's out-of-space scenario and the code's own
`raise InsteonError('Out of space in linkdb!')`) says a write whose
addition pass cannot fit the next missing record raises the out-of-space
error.  That raise is unreachable: for every refetched table whose records
carry fresh `Address` objects — i.e. every table `_retrieve` actually
builds — the mid-call `update_cache` refetch fails the identity-based
permission check and raises the not-linked error *before* the addition
pass ever runs (and each add would itself raise `AttributeError` at
`record.address.array`).  The write call therefore ends with the
deletion-pass trace and the not-linked error, never out-of-space. -/
theorem c4_refetch_raises_before_addition (m : Address)
    (src cur refetched : LinkDB) (now : Timestamp) (cs1 : List GCmd)
    (lr' : Option LinkRecord)
    (hdel : delPass m src cur.records none = (cs1, lr', none))
    (hfresh : addressesFreshFor m refetched = true) :
    genericWrite m src cur refetched now
        = (cs1, some Err.notLinkedController) ∧
      (genericWrite m src cur refetched now).2 ≠ some Err.outOfSpace := by
  have hc := checkPermissions_false_of_fresh m refetched hfresh
  have h1 : genericWrite m src cur refetched now
      = (cs1, some Err.notLinkedController) := by
    simp [genericWrite, hdel, hc]
  refine ⟨h1, ?_⟩
  rw [h1]
  simp

/-- Witness for C4 at the spec's out-of-space scenario: `refetched` is a
retrieved table (fresh address objects) occupying the slot at the floor
offset `0x08`, `srcDb` adds one record not present remotely; the call
raises the not-linked error with no add issued, not out-of-space. -/
theorem c4_refetch_raises_before_addition_witness :
    genericWrite mA ⟨[rOther], some ts0⟩ ⟨[], none⟩ ⟨[rFloor], none⟩ ts0
        = ([], some Err.notLinkedController) ∧
      (genericWrite mA ⟨[rOther], some ts0⟩ ⟨[], none⟩ ⟨[rFloor], none⟩
        ts0).2 ≠ some Err.outOfSpace :=
  c4_refetch_raises_before_addition mA ⟨[rOther], some ts0⟩ ⟨[], none⟩
    ⟨[rFloor], none⟩ ts0 [] none (by decide) (by decide)

/-! Lemmas for serialization. -/

theorem recPacked_some (r : LinkRecord) (a : Address)
    (ha : r.address = some a) :
    recPacked r = some
      { offset := if truthyN r.offset then r.offset else none
        address := a.packedA
        group := r.group
        flags := r.flags
        data := r.data } := by
  simp [recPacked, ha]

theorem truthy_offset_id (r : LinkRecord) (hO : r.offset ≠ some 0) :
    (if truthyN r.offset then r.offset else none) = r.offset := by
  cases ho : r.offset with
  | none => simp [truthyN]
  | some n =>
    have hn : n ≠ 0 := by
      intro h0
      exact hO (by rw [ho, h0])
    simp [truthyN, hn]

/-- Round-trip facts for a single record: packing succeeds when the
address is present, and unpacking restores every payload field (the
address byte-wise) provided the offset is not the truthiness-swallowed
0. -/
theorem recPacked_roundtrip_fields (r : LinkRecord) (a : Address)
    (ha : r.address = some a) (hO : r.offset ≠ some 0) :
    ∃ pr, recPacked r = some pr ∧
      (recUnpack pr).offset = r.offset ∧
      addrBytesOpt (recUnpack pr).address = addrBytesOpt r.address ∧
      (recUnpack pr).group = r.group ∧
      (recUnpack pr).flags = r.flags ∧
      (recUnpack pr).data = r.data ∧
      (recUnpack pr).filterFlags = none := by
  refine ⟨_, recPacked_some r a ha, ?_, ?_, rfl, rfl, rfl, rfl⟩
  · exact truthy_offset_id r hO
  · rw [ha]
    rfl

/-- Packing then unpacking a record list succeeds and preserves every
payload field (the address byte-wise) when each record has an address and
no record has the truthiness-swallowed offset 0. -/
theorem packRecords_roundtrip :
    ∀ (rs : List LinkRecord),
      (∀ r ∈ rs, r.address.isSome) → (∀ r ∈ rs, r.offset ≠ some 0) →
      ∃ prs, packRecords rs = some prs ∧
        (prs.map recUnpack).map LinkRecord.offset
          = rs.map LinkRecord.offset ∧
        (prs.map recUnpack).map (fun r => addrBytesOpt r.address)
          = rs.map (fun r => addrBytesOpt r.address) ∧
        (prs.map recUnpack).map LinkRecord.group
          = rs.map LinkRecord.group ∧
        (prs.map recUnpack).map LinkRecord.flags
          = rs.map LinkRecord.flags ∧
        (prs.map recUnpack).map LinkRecord.data = rs.map LinkRecord.data ∧
        ∀ r' ∈ prs.map recUnpack, r'.filterFlags = none := by
  intro rs
  induction rs with
  | nil =>
    intro _ _
    exact ⟨[], rfl, rfl, rfl, rfl, rfl, rfl, by simp⟩
  | cons r rest ih =>
    intro hA hO
    rcases Option.isSome_iff_exists.mp
      (hA r (List.mem_cons_self r rest)) with ⟨a, ha⟩
    rcases recPacked_roundtrip_fields r a ha
      (hO r (List.mem_cons_self r rest)) with
      ⟨pr, hpr, f1, f2, f3, f4, f5, f6⟩
    rcases ih (fun x hx => hA x (List.mem_cons_of_mem r hx))
      (fun x hx => hO x (List.mem_cons_of_mem r hx)) with
      ⟨prs, hmap, hoff, haddr, hgrp, hflg, hdat, hff⟩
    refine ⟨pr :: prs, ?_, ?_, ?_, ?_, ?_, ?_, ?_⟩
    · simp [packRecords, hpr, hmap]
    · simp only [List.map_cons]
      rw [f1, hoff]
    · simp only [List.map_cons]
      rw [f2, haddr]
    · simp only [List.map_cons]
      rw [f3, hgrp]
    · simp only [List.map_cons]
      rw [f4, hflg]
    · simp only [List.map_cons]
      rw [f5, hdat]
    · intro r' hr'
      rw [List.map_cons] at hr'
      rcases List.mem_cons.mp hr' with h1 | h1
      · rw [h1]
        exact f6
      · exact hff r' h1

/-! ## C6 — serialization round trip -/

/-- C6 (counterexample): the claim says the round trip preserves every
record's offset for every timestamped database.  `LinkRecord.packed` keeps
the offset key only under `if self.offset:` — Python truthiness — so a
record whose offset is 0 serializes like one with no offset and comes back
with `offset = None`. -/
theorem c6_roundtrip_counterexample :
    (dbPacked ⟨[rZero], some ts0⟩).map
        (fun p => (dbUnpack p).records.map LinkRecord.offset)
      = some [none] ∧
    (LinkDB.mk [rZero] (some ts0)).records.map LinkRecord.offset
      = [some 0] := by
  decide

/-- C6 (amended): for every database with a timestamp whose records all
have an address (a record without one makes `packed` raise) and none of
which carries the truthiness-swallowed offset 0, serialization succeeds and
`unpack (packed db)` preserves each record's offset, address (byte-wise —
object identities are fresh), group, flags and data, preserves the
timestamp to second precision (microseconds zeroed), and carries no filter
masks. -/
theorem c6_roundtrip_lossless (db : LinkDB) (ts : Timestamp)
    (hts : db.timestamp = some ts)
    (hA : ∀ r ∈ db.records, r.address.isSome)
    (hO : ∀ r ∈ db.records, r.offset ≠ some 0) :
    ∃ p, dbPacked db = some p ∧
      (dbUnpack p).timestamp = some ⟨ts.sec, 0⟩ ∧
      (dbUnpack p).records.map LinkRecord.offset
        = db.records.map LinkRecord.offset ∧
      (dbUnpack p).records.map (fun r => addrBytesOpt r.address)
        = db.records.map (fun r => addrBytesOpt r.address) ∧
      (dbUnpack p).records.map LinkRecord.group
        = db.records.map LinkRecord.group ∧
      (dbUnpack p).records.map LinkRecord.flags
        = db.records.map LinkRecord.flags ∧
      (dbUnpack p).records.map LinkRecord.data
        = db.records.map LinkRecord.data ∧
      ∀ r' ∈ (dbUnpack p).records, r'.filterFlags = none := by
  rcases packRecords_roundtrip db.records hA hO with
    ⟨prs, hmap, hoff, haddr, hgrp, hflg, hdat, hff⟩
  refine ⟨{ timestamp := some (tsDump ts), records := some prs }, ?_,
    rfl, ?_, ?_, ?_, ?_, ?_, ?_⟩
  · simp [dbPacked, hts, hmap]
  · simpa [dbUnpack] using hoff
  · simpa [dbUnpack] using haddr
  · simpa [dbUnpack] using hgrp
  · simpa [dbUnpack] using hflg
  · simpa [dbUnpack] using hdat
  · intro r' hr'
    exact hff r' (by simpa [dbUnpack] using hr')

/-- Witness for C6 (amended) at a concrete one-record database. -/
theorem c6_roundtrip_lossless_witness :
    ∃ p, dbPacked ⟨[rTop], some ts0⟩ = some p ∧
      (dbUnpack p).timestamp = some ⟨ts0.sec, 0⟩ ∧
      (dbUnpack p).records.map LinkRecord.offset
        = [rTop].map LinkRecord.offset ∧
      (dbUnpack p).records.map (fun r => addrBytesOpt r.address)
        = [rTop].map (fun r => addrBytesOpt r.address) ∧
      (dbUnpack p).records.map LinkRecord.group
        = [rTop].map LinkRecord.group ∧
      (dbUnpack p).records.map LinkRecord.flags
        = [rTop].map LinkRecord.flags ∧
      (dbUnpack p).records.map LinkRecord.data
        = [rTop].map LinkRecord.data ∧
      ∀ r' ∈ (dbUnpack p).records, r'.filterFlags = none :=
  c6_roundtrip_lossless ⟨[rTop], some ts0⟩ ts0 rfl
    (by decide) (by decide)

/-! ## C9 — Address equality -/

/-- C9: the claim says `Address` equality is byte-wise, two distinct objects
built from the same three bytes comparing equal.  The class defines no
`__eq__`, so Python `==` is object identity: two addresses with identical
bytes (here `1.2.3`) but distinct identities compare unequal.  This refutes
the claim and, with it, every `src/` comparison that relies on byte-wise
address equality (`LinkRecord.matches`, `_check_permissions`, the self-link
test in `_write`). -/
theorem c9_address_eq_identity :
    Address.bytesOf ⟨1, 2, 3, 0⟩ = Address.bytesOf ⟨1, 2, 3, 1⟩ ∧
      Address.pyEq ⟨1, 2, 3, 0⟩ ⟨1, 2, 3, 1⟩ = false ∧
      Address.pyEq ⟨1, 2, 3, 0⟩ ⟨1, 2, 3, 0⟩ = true := by
  decide

/-! ## C8 — writer retry loop -/

/-- C8: the claim says a request with `retries=3` whose every attempt fails
is written exactly 3 times.  In the source, each try of `_run_writer`
evaluates `self._conn`, an attribute `Port` never sets (`__init__` sets only
`defs`, `_queue`, `_open_requests`, `_write_handlers`, `_read_handlers`,
`_task`; `start` keeps the connection in a local), so the first try raises
`AttributeError` after zero writes, whatever the per-try outcomes would have
been. -/
theorem c8_writer_attribute_error (outcome : Nat → TryOutcome) :
    runWriterTries outcome 3 0 = (0, some Err.attributeError) := by
  rfl

/-! ## C5 — flash with an unpopulated source -/

/-- C5: `flash_cache` called with a source database whose timestamp is unset
raises the unpopulated-source error before any retrieval, backup write, or
device command: the effect trace is empty. -/
theorem c5_flash_unpopulated_refused (modemAddr : Address)
    (srcdb retrieved retrieved2 refetchedMid finalRetrieved finalRetrieved2 :
      LinkDB)
    (allowLinking hasLinkers : Bool) (now : Timestamp)
    (h : srcdb.timestamp = none) :
    flashCacheG modemAddr srcdb retrieved retrieved2 allowLinking hasLinkers
        refetchedMid finalRetrieved finalRetrieved2 now
      = ([], some Err.unpopulatedSource) := by
  simp [flashCacheG, LinkDB.valid, h]

/-- Witness for C5 at a concrete unpopulated database. -/
theorem c5_flash_unpopulated_refused_witness :
    (LinkDB.mk [rOther] none).timestamp = none ∧
      flashCacheG mA ⟨[rOther], none⟩ ⟨[], none⟩ ⟨[], none⟩ true true
          ⟨[], none⟩ ⟨[], none⟩ ⟨[], none⟩ ts0
        = ([], some Err.unpopulatedSource) :=
  ⟨rfl, c5_flash_unpopulated_refused mA ⟨[rOther], none⟩ ⟨[], none⟩
    ⟨[], none⟩ ⟨[], none⟩ ⟨[], none⟩ ⟨[], none⟩ true true ts0 rfl⟩

/-! ## C7 — end_offset -/

/-- C7: `end_offset` returns the table ceiling `0x0fff` on an empty
database, returns `0x0ff7` when the only record sits at offset `0x0fff`,
and records with no offset never affect the result. -/
theorem c7_end_offset_clamps_and_ignores :
    (∀ ts, LinkDB.endOffset ⟨[], ts⟩ = 0x0fff) ∧
      (∀ (r : LinkRecord) (ts), r.offset = some 0x0fff →
        LinkDB.endOffset ⟨[r], ts⟩ = 0x0ff7) ∧
      (∀ (rs1 rs2 : List LinkRecord) (r : LinkRecord) (ts),
        r.offset = none →
        LinkDB.endOffset ⟨rs1 ++ r :: rs2, ts⟩
          = LinkDB.endOffset ⟨rs1 ++ rs2, ts⟩) := by
  refine ⟨fun ts => rfl, ?_, ?_⟩
  · intro r ts h
    simp [LinkDB.endOffset, endOffsetStep, h]
  · intro rs1 rs2 r ts h
    simp only [LinkDB.endOffset, List.foldl_append, List.foldl_cons,
      endOffsetStep_offset_none _ r h]

/-- Witness for C7 at a concrete record with offset `0x0fff` and a concrete
record with no offset. -/
theorem c7_end_offset_witness :
    LinkDB.endOffset ⟨[rTop], some ts0⟩ = 0x0ff7 ∧
      LinkDB.endOffset ⟨[⟨none, some aB, some 1, some 0xA2, some [0, 0, 0],
          none, 5⟩], some ts0⟩
        = LinkDB.endOffset ⟨[], some ts0⟩ :=
  ⟨c7_end_offset_clamps_and_ignores.2.1 rTop (some ts0) rfl,
    c7_end_offset_clamps_and_ignores.2.2 [] []
      ⟨none, some aB, some 1, some 0xA2, some [0, 0, 0], none, 5⟩
      (some ts0) rfl⟩

/-! ## C10 — modem retrieval assigns no offsets -/

/-- C10: every record of a database built by `ModemDBManager._retrieve` has
its offset unset (the constructor is called with `None`), so `end_offset`
on such a database is always the table ceiling `0x0fff`. -/
theorem c10_modem_retrieve_no_offsets (msgs : List ModemRecMsg)
    (now : Timestamp) :
    (∀ r ∈ (modemRetrieve msgs now).records, r.offset = none) ∧
      (modemRetrieve msgs now).endOffset = 0x0fff := by
  have hmem : ∀ r ∈ (modemRetrieve msgs now).records, r.offset = none := by
    intro r hr
    have hr2 : r ∈ ((msgs.enum.map (fun p => modemRecOfMsg p.1 p.2)).foldl
        LinkDB.add ⟨[], none⟩).records := hr
    rcases mem_records_foldl_add _ _ _ hr2 with h1 | h1
    · simp at h1
    · rcases List.mem_map.mp h1 with ⟨p, _, hp⟩
      rw [← hp]
      rfl
  refine ⟨hmem, ?_⟩
  exact foldl_endOffsetStep_all_none _ _ hmem

end Insteon
